import Mathlib

/-!
Shallow embedding of the numeric utility functions of the pandas-ta excerpt
(src/pandas_ta/utils/_core.py and src/pandas_ta/overlap/hl2.py).

A pandas Series of floats is modelled as a list of optional rationals,
where none stands for NaN (an undefined value); positions play the role of
the aligned integer index.  Dynamically typed Python arguments are modelled
by the PyObj sum type; Python exceptions by an Except error result.
Floating point arithmetic is modelled exactly over the rationals.
-/

set_option autoImplicit false

namespace PandasTA

/-- A dynamically typed Python value, covering the cases the utility
functions inspect.  Python booleans are a subtype of int, which the
embeddings of the isinstance checks reproduce. -/
inductive PyObj where
  | none : PyObj
  | bool : Bool → PyObj
  | int : ℤ → PyObj
  | float : ℚ → PyObj
  | str : String → PyObj
  | series : List (Option ℚ) → PyObj
deriving DecidableEq

/-- A raised Python exception (only the kind is tracked). -/
inductive Err where
  | typeError : Err
  | valueError : Err
  | indexError : Err
  | attributeError : Err
deriving DecidableEq

/-- A pandas Series of floats: positional values, none = NaN. -/
abbrev SeriesQ := List (Option ℚ)

/-- Positional lookup with integer position: out-of-range positions read as
NaN, matching pandas alignment on a RangeIndex. -/
def sget (s : SeriesQ) (j : ℤ) : Option ℚ :=
  if 0 ≤ j then s.getD j.toNat none else none

/-- Elementwise binary arithmetic on two aligned series: the result index is
the union of the two RangeIndexes (length = max), unmatched or NaN operands
give NaN. -/
def seriesBin (f : ℚ → ℚ → ℚ) (a b : SeriesQ) : SeriesQ :=
  (List.range (max a.length b.length)).map fun i : ℕ =>
    (sget a (i : ℤ)).bind fun x => (sget b (i : ℤ)).map fun y => f x y

/-- Embeds Series.diff(k): element i is s[i] - s[i-k], NaN when either side
is NaN or out of range.  Negative and zero k follow the same rule, as in
pandas. -/
def sdiff (s : SeriesQ) (k : ℤ) : SeriesQ :=
  (List.range s.length).map fun i : ℕ =>
    (sget s (i : ℤ)).bind fun x => (sget s ((i : ℤ) - k)).map fun y => x - y

/-- Embeds Series.shift(k): same length, element i reads position i-k of the
input, NaN when out of range. -/
def shiftSeries (s : SeriesQ) (k : ℤ) : SeriesQ :=
  (List.range s.length).map fun i : ℕ => sget s ((i : ℤ) - k)

/-- Truncation of a rational toward zero, the behaviour of Python int() on
a float. -/
def ratTrunc (q : ℚ) : ℤ :=
  if 0 ≤ q then ⌊q⌋ else ⌈q⌉

/-- Embeds int(x) for the argument kinds PyObj covers: ints pass through,
bools become 0/1, floats truncate toward zero, None raises TypeError and a
(non-numeric) string raises ValueError. -/
def pyInt : PyObj → Except Err ℤ
  | .int n => .ok n
  | .bool b => .ok (if b then 1 else 0)
  | .float q => .ok (ratTrunc q)
  | .str _ => .error .valueError
  | _ => .error .typeError

/-- get_offset (utils/_core.py line 36): int(x) if isinstance(x, int) else 0.
Python bools satisfy isinstance(x, int). -/
def get_offset (x : PyObj) : ℤ :=
  match x with
  | .int n => n
  | .bool b => if b then 1 else 0
  | _ => 0

/-- get_drift (utils/_core.py line 31): int(x) if isinstance(x, int) and
x != 0 else 1.  For bools: True != 0 and int(True) = 1, False == 0, so both
yield 1. -/
def get_drift (x : PyObj) : ℤ :=
  match x with
  | .int n => if n ≠ 0 then n else 1
  | .bool _ => 1
  | _ => 1

/-- verify_series (utils/_core.py line 145).  has_length requires
min_length to be an int (bools included); non-Series input falls through to
an implicit None return. -/
def verify_series (series : PyObj) (min_length : PyObj) : Option SeriesQ :=
  match series with
  | .series s =>
    match min_length with
    | .int m => if (s.length : ℤ) < m then none else some s
    | .bool b => if (s.length : ℤ) < (if b then 1 else 0) then none else some s
    | _ => some s
  | _ => none

/-- Machine epsilon, sys.float_info.epsilon = 2^-52, modelled exactly. -/
def epsilon : ℚ := 1 / 2 ^ 52

/-- non_zero_range (utils/_core.py line 58): diff = high - low; if any
element of diff equals zero (NaN compares unequal), epsilon is added
in place to every element (NaN + epsilon stays NaN). -/
def non_zero_range (high low : SeriesQ) : SeriesQ :=
  let diff := seriesBin (fun a b => a - b) high low
  if diff.any (fun o => decide (o = some 0)) then
    diff.map (Option.map fun v => v + epsilon)
  else diff

/-- The unshifted hl2 value series: 0.5 * (high + low), elementwise, with
NaN and index-union alignment following the series arithmetic rules. -/
def halfSumSeries (h l : SeriesQ) : SeriesQ :=
  (seriesBin (fun x y => x + y) h l).map (Option.map fun v => (1 / 2 : ℚ) * v)

/-- hl2 (overlap/hl2.py line 5).  Both arguments go through verify_series
with no min_length; when either comes back None, the expression
0.5 * (high + low) raises a TypeError (no addition of None with a Series),
otherwise the result is shifted when the normalised offset is nonzero.
The name/category attributes are metadata with no behavioural content and
are not modelled. -/
def hl2 (high low offset : PyObj) : Except Err PyObj :=
  match verify_series high .none, verify_series low .none with
  | some h, some l =>
    let off := get_offset offset
    let base := halfSumSeries h l
    .ok (.series (if off ≠ 0 then shiftSeries base off else base))
  | _, _ => .error .typeError

/-- signed_series (utils/_core.py line 81).  initial survives only when lag
is not a string; lag falls back to 1 unless it is an int (bools included:
int(True)=1, int(False)=0).  The diff is classified by the two masked
assignments sign[sign > 0] = 1 and sign[sign < 0] = -1 (NaN stays NaN),
then iloc[0] overwrites the first element, raising IndexError on an empty
series.  A non-Series argument comes back as None from verify_series and
None.diff raises AttributeError. -/
def signed_series (series : PyObj) (initial : Option ℚ) (lag : PyObj) :
    Except Err SeriesQ :=
  let init : Option ℚ := match lag with | .str _ => none | _ => initial
  let k : ℤ := match lag with
    | .int n => n
    | .bool b => if b then 1 else 0
    | _ => 1
  match series with
  | .series s =>
    if s.isEmpty then .error .indexError
    else
      let sign := ((sdiff s k).map (Option.map fun v => if 0 < v then 1 else v)).map
        (Option.map fun v => if v < 0 then -1 else v)
      .ok (sign.set 0 init)
  | _ => .error .attributeError

/-- The diff-fill-mask core of unsigned_differences once amount has been
normalised to an integer: the amount-step difference with NaN filled to 0,
then for each branch the two masked assignments of the source (for
positive: v <= 0 becomes 0, then v > 0 becomes 1; for negative: v >= 0
becomes 0, then v < 0 becomes 1). -/
def udCore (s : SeriesQ) (k : ℤ) : List ℚ × List ℚ :=
  let filled := (sdiff s k).map (fun o => o.getD 0)
  let positive := (filled.map fun v => if v ≤ 0 then 0 else v).map
    fun v => if 0 < v then 1 else v
  let negative := (filled.map fun v => if 0 ≤ v then 0 else v).map
    fun v => if v < 0 then 1 else v
  (positive, negative)

/-- unsigned_differences (utils/_core.py line 116): amount = int(amount) if
amount is not None else 1, where int() truncates floats and raises on
non-numeric input, then diff/fillna/mask.  The asint kwarg only casts the
finished 0/1 masks to an integer dtype without changing any value, so it is
not modelled. -/
def unsigned_differences (s : SeriesQ) (amount : PyObj) :
    Except Err (List ℚ × List ℚ) :=
  match amount with
  | .none => .ok (udCore s 1)
  | a => (pyInt a).map (fun k => udCore s k)

/-- numpy argmax on a list of floats: the first position attaining the
maximum.  (numpy raises on an empty array; the claims only use nonempty
windows.) -/
def argmaxQ : List ℚ → ℕ
  | [] => 0
  | [_] => 0
  | a :: b :: t =>
    if a < (b :: t).getD (argmaxQ (b :: t)) 0 then argmaxQ (b :: t) + 1 else 0

/-- numpy argmin on a list of floats: the first position attaining the
minimum. -/
def argminQ : List ℚ → ℕ
  | [] => 0
  | [_] => 0
  | a :: b :: t =>
    if (b :: t).getD (argminQ (b :: t)) 0 < a then argminQ (b :: t) + 1 else 0

/-- recent_maximum_index (utils/_core.py line 67): int(argmax(x[::-1])). -/
def recent_maximum_index (x : List ℚ) : ℕ := argmaxQ x.reverse

/-- recent_minimum_index (utils/_core.py line 71): int(argmin(x[::-1])). -/
def recent_minimum_index (x : List ℚ) : ℕ := argminQ x.reverse

/-- One measured row of the performance table: indicator name with elapsed
seconds and milliseconds. -/
structure PerfRow where
  iname : String
  secs : ℚ
  ms : ℚ
deriving DecidableEq

/-- Ordered insertion by a Boolean relation. -/
def insertB {α : Type} (le : α → α → Bool) (a : α) : List α → List α
  | [] => [a]
  | b :: t => if le a b then a :: b :: t else b :: insertB le a t

/-- Insertion sort by a Boolean relation, standing in for
DataFrame.sort_values. -/
def isortB {α : Type} (le : α → α → Bool) : List α → List α
  | [] => []
  | a :: t => insertB le a (isortB le t)

/-- The 50% row of DataFrame.describe (the pandas median): midpoint of the
two middle order statistics. -/
def qmedian (l : List ℚ) : ℚ :=
  let sorted := isortB (fun a b => decide (a ≤ b)) l
  let n := sorted.length
  if n = 0 then 0
  else if n % 2 = 1 then sorted.getD (n / 2) 0
  else (sorted.getD (n / 2 - 1) 0 + sorted.getD (n / 2) 0) / 2

/-- The summary statistics of one numeric column: the min/50%/mean/max rows
of describe() plus the appended column total. -/
structure ColStats where
  cmin : ℚ
  cmed : ℚ
  cmean : ℚ
  cmax : ℚ
  ctotal : ℚ
deriving DecidableEq

/-- Summary statistics of one column, as performance assembles them
(utils/_core.py lines 195-196). -/
def colStats (l : List ℚ) : ColStats :=
  match l with
  | [] => ⟨0, 0, 0, 0, 0⟩
  | x :: xs => ⟨xs.foldl min x, qmedian (x :: xs),
      (x :: xs).sum / ((x :: xs).length : ℚ), xs.foldl max x, (x :: xs).sum⟩

/-- The top-parameter normalisation in performance (utils/_core.py line
160): int(top) if isinstance(top, int) and top > 0 else None. -/
def normTop (x : PyObj) : Option ℤ :=
  match x with
  | .int n => if 0 < n then some n else none
  | .bool b => if b then some 1 else none
  | _ => none

/-- The reporting tail of performance (utils/_core.py lines 191-206) after
the timing measurements: the rows of (Indicator, secs, ms) records are
sorted by the secs column in the requested direction, the summary
statistics are taken per column over the full sorted table (lines
195-197), and only afterwards is the table truncated to the top rows when
top is given (line 206).  The measurement itself (df.ta calls, stdout
capture, printing) is external reporting and is not modelled. -/
def perfCore (rows : List PerfRow) (top : PyObj) (ascending : Bool) :
    List PerfRow × ColStats × ColStats :=
  let tdf := isortB (fun a b => if ascending then decide (a.secs ≤ b.secs)
    else decide (b.secs ≤ a.secs)) rows
  let stats := (colStats (tdf.map PerfRow.secs), colStats (tdf.map PerfRow.ms))
  let tdf2 := match normTop top with
    | some k => tdf.take k.toNat
    | none => tdf
  (tdf2, stats)

/-! ## Helper lemmas -/

lemma length_range_map {α : Type} (f : ℕ → α) (n : ℕ) :
    ((List.range n).map f).length = n := by simp

lemma getD_range_map {α : Type} (f : ℕ → α) (d : α) (n i : ℕ) :
    ((List.range n).map f).getD i d = if i < n then f i else d := by
  by_cases h : i < n
  · simp [List.getD_eq_getElem?_getD, List.getElem?_map, List.getElem?_range, h]
  · have hlen : ((List.range n).map f).length ≤ i := by
      simpa [length_range_map] using Nat.le_of_not_lt h
    simp [List.getD_eq_getElem?_getD, List.getElem?_eq_none hlen, h]

lemma sget_of_ge (s : SeriesQ) (j : ℤ) (h : (s.length : ℤ) ≤ j) :
    sget s j = none := by
  unfold sget
  by_cases h0 : 0 ≤ j
  · have : s.length ≤ j.toNat := by omega
    simp [h0, List.getD_eq_getElem?_getD, List.getElem?_eq_none this]
  · simp [h0]

lemma sget_natCast (s : SeriesQ) (i : ℕ) : sget s (i : ℤ) = s.getD i none := by
  simp [sget]

/-- Elementwise reading of seriesBin, valid at every position (out-of-range
positions read none on both sides). -/
lemma seriesBin_getD (f : ℚ → ℚ → ℚ) (a b : SeriesQ) (i : ℕ) :
    (seriesBin f a b).getD i none =
      (sget a i).bind fun x => (sget b i).map fun y => f x y := by
  unfold seriesBin
  rw [getD_range_map]
  by_cases h : i < max a.length b.length
  · simp [h]
  · have ha : sget a i = none := by
      apply sget_of_ge; omega
    simp [h, ha]

lemma length_seriesBin (f : ℚ → ℚ → ℚ) (a b : SeriesQ) :
    (seriesBin f a b).length = max a.length b.length := by
  simp [seriesBin]

lemma verify_series_not_series (x : PyObj) (hx : ∀ s : SeriesQ, x ≠ .series s) :
    verify_series x .none = none := by
  cases x <;> first | rfl | exact absurd rfl (hx _)

lemma verify_series_none_eq_some (x : PyObj) (s : SeriesQ)
    (h : verify_series x .none = some s) : x = .series s := by
  cases x <;> simp [verify_series] at h
  rw [h]

lemma length_shiftSeries (s : SeriesQ) (k : ℤ) :
    (shiftSeries s k).length = s.length := by
  simp [shiftSeries]

lemma shiftSeries_getD (s : SeriesQ) (k : ℤ) (i : ℕ) (hi : i < s.length) :
    (shiftSeries s k).getD i none = sget s ((i : ℤ) - k) := by
  unfold shiftSeries
  rw [getD_range_map]
  simp [hi]

lemma length_halfSumSeries (h l : SeriesQ) :
    (halfSumSeries h l).length = max h.length l.length := by
  simp [halfSumSeries, seriesBin]

lemma length_sdiff (s : SeriesQ) (k : ℤ) : (sdiff s k).length = s.length := by
  simp [sdiff]

lemma sdiff_getD (s : SeriesQ) (k : ℤ) (j : ℕ) :
    (sdiff s k).getD j none =
      (sget s (j : ℤ)).bind fun x => (sget s ((j : ℤ) - k)).map fun y => x - y := by
  unfold sdiff
  rw [getD_range_map]
  by_cases hj : j < s.length
  · simp [hj]
  · have hs : sget s (j : ℤ) = none :=
      sget_of_ge s _ (by exact_mod_cast Nat.le_of_not_lt hj)
    simp [hj, hs]

lemma getD_map_optionMap (g : ℚ → ℚ) (l : List (Option ℚ)) (j : ℕ) :
    (l.map (Option.map g)).getD j none = Option.map g (l.getD j none) := by
  by_cases hj : j < l.length
  · simp [List.getD_eq_getElem?_getD, List.getElem?_map, List.getElem?_eq_getElem hj]
  · have h1 : l.length ≤ j := Nat.le_of_not_lt hj
    have h2 : (l.map (Option.map g)).length ≤ j := by simpa using h1
    simp [List.getD_eq_getElem?_getD, List.getElem?_eq_none h1, List.getElem?_eq_none h2]

lemma getD_map_q (g : ℚ → ℚ) (l : List ℚ) (j : ℕ) (hj : j < l.length) :
    (l.map g).getD j 0 = g (l.getD j 0) := by
  simp [List.getD_eq_getElem?_getD, List.getElem?_map, List.getElem?_eq_getElem hj]

lemma getD_map_fill (l : SeriesQ) (j : ℕ) (hj : j < l.length) :
    (l.map (fun o => o.getD 0)).getD j 0 = (l.getD j none).getD 0 := by
  simp [List.getD_eq_getElem?_getD, List.getElem?_map, List.getElem?_eq_getElem hj]

lemma sign_mask_compose (d : ℚ) :
    (fun v => if v < 0 then -1 else v) ((fun v => if 0 < v then 1 else v) d) =
      if 0 < d then 1 else if d < 0 then -1 else d := by
  by_cases h1 : 0 < d
  · norm_num [h1]
  · by_cases h2 : d < 0 <;> simp [h1, h2]

lemma pos_mask_compose (d : ℚ) :
    (fun v => if 0 < v then 1 else v) ((fun v => if v ≤ 0 then 0 else v) d) =
      if 0 < d then 1 else 0 := by
  by_cases h1 : 0 < d
  · have : ¬ d ≤ 0 := not_le.mpr h1
    simp [h1, this]
  · have : d ≤ 0 := not_lt.mp h1
    simp [h1, this]

lemma neg_mask_compose (d : ℚ) :
    (fun v => if v < 0 then 1 else v) ((fun v => if 0 ≤ v then 0 else v) d) =
      if d < 0 then 1 else 0 := by
  by_cases h1 : d < 0
  · have : ¬ 0 ≤ d := not_le.mpr h1
    simp [h1, this]
  · have : 0 ≤ d := not_lt.mp h1
    simp [h1, this]

lemma getD_set_zero (l : List (Option ℚ)) (v : Option ℚ) (hl : l ≠ []) :
    (l.set 0 v).getD 0 none = v := by
  cases l with
  | nil => exact absurd rfl hl
  | cons a t => rfl

lemma getD_set_succ (l : List (Option ℚ)) (v : Option ℚ) (j : ℕ) (hj : j ≠ 0) :
    (l.set 0 v).getD j none = l.getD j none := by
  cases l with
  | nil => rfl
  | cons a t =>
    cases j with
    | zero => exact absurd rfl hj
    | succ j2 => rfl

lemma isEmpty_false_of_ne_nil {α : Type} (l : List α) (h : l ≠ []) :
    l.isEmpty = false := by
  cases l with
  | nil => exact absurd rfl h
  | cons a t => rfl

lemma udCore_length (s : SeriesQ) (k : ℤ) :
    (udCore s k).1.length = s.length ∧ (udCore s k).2.length = s.length := by
  constructor <;> simp [udCore, sdiff]

lemma udCore_masks (s : SeriesQ) (k : ℤ) (j : ℕ) (hj : j < s.length) :
    (udCore s k).1.getD j 0 =
      (if 0 < (((sdiff s k).getD j none).getD 0) then 1 else 0) ∧
    (udCore s k).2.getD j 0 =
      (if (((sdiff s k).getD j none).getD 0) < 0 then 1 else 0) := by
  have hj1 : j < (sdiff s k).length := by rw [length_sdiff]; exact hj
  have hfill : j < ((sdiff s k).map (fun o => o.getD 0)).length := by
    simpa using hj1
  have hm1 : j < (((sdiff s k).map (fun o => o.getD 0)).map
      (fun v => if v ≤ 0 then 0 else v)).length := by simpa using hj1
  have hm2 : j < (((sdiff s k).map (fun o => o.getD 0)).map
      (fun v => if 0 ≤ v then 0 else v)).length := by simpa using hj1
  constructor
  · show ((((sdiff s k).map (fun o => o.getD 0)).map
        (fun v => if v ≤ 0 then 0 else v)).map (fun v => if 0 < v then 1 else v)).getD j 0 = _
    rw [getD_map_q _ _ _ hm1, getD_map_q _ _ _ hfill, getD_map_fill _ _ hj1]
    exact pos_mask_compose _
  · show ((((sdiff s k).map (fun o => o.getD 0)).map
        (fun v => if 0 ≤ v then 0 else v)).map (fun v => if v < 0 then 1 else v)).getD j 0 = _
    rw [getD_map_q _ _ _ hm2, getD_map_q _ _ _ hfill, getD_map_fill _ _ hj1]
    exact neg_mask_compose _

lemma argmaxQ_cons_cons (a b : ℚ) (t : List ℚ) :
    argmaxQ (a :: b :: t) =
      if a < (b :: t).getD (argmaxQ (b :: t)) 0 then argmaxQ (b :: t) + 1 else 0 := rfl

lemma argminQ_cons_cons (a b : ℚ) (t : List ℚ) :
    argminQ (a :: b :: t) =
      if (b :: t).getD (argminQ (b :: t)) 0 < a then argminQ (b :: t) + 1 else 0 := rfl

lemma argmaxQ_lt_length (l : List ℚ) (h : l ≠ []) : argmaxQ l < l.length := by
  induction l with
  | nil => exact absurd rfl h
  | cons a t ih =>
    cases t with
    | nil => simp [argmaxQ]
    | cons b t2 =>
      by_cases hc : a < (b :: t2).getD (argmaxQ (b :: t2)) 0
      · have hlt := ih (by simp)
        simp only [List.length_cons] at hlt
        rw [argmaxQ_cons_cons, if_pos hc]
        simp only [List.length_cons]
        omega
      · rw [argmaxQ_cons_cons, if_neg hc]
        simp only [List.length_cons]
        omega

lemma argmaxQ_is_max (l : List ℚ) (q : ℕ) (hq : q < l.length) :
    l.getD q 0 ≤ l.getD (argmaxQ l) 0 := by
  induction l generalizing q with
  | nil => simp at hq
  | cons a t ih =>
    cases t with
    | nil =>
      have hq0 : q = 0 := by simpa using hq
      subst hq0
      simp [argmaxQ]
    | cons b t2 =>
      by_cases hc : a < (b :: t2).getD (argmaxQ (b :: t2)) 0
      · rw [argmaxQ_cons_cons, if_pos hc]
        cases q with
        | zero =>
          simp only [List.getD_cons_zero, List.getD_cons_succ]
          exact le_of_lt hc
        | succ q2 =>
          have hq2 : q2 < (b :: t2).length := by simpa using hq
          simp only [List.getD_cons_succ]
          exact ih q2 hq2
      · rw [argmaxQ_cons_cons, if_neg hc]
        have hM : (b :: t2).getD (argmaxQ (b :: t2)) 0 ≤ a := not_lt.mp hc
        cases q with
        | zero => simp
        | succ q2 =>
          have hq2 : q2 < (b :: t2).length := by simpa using hq
          have hle := ih q2 hq2
          simp only [List.getD_cons_succ, List.getD_cons_zero]
          exact le_trans hle hM

lemma argmaxQ_first (l : List ℚ) (q : ℕ) (hq : q < argmaxQ l) :
    l.getD q 0 < l.getD (argmaxQ l) 0 := by
  induction l generalizing q with
  | nil => simp [argmaxQ] at hq
  | cons a t ih =>
    cases t with
    | nil => simp [argmaxQ] at hq
    | cons b t2 =>
      by_cases hc : a < (b :: t2).getD (argmaxQ (b :: t2)) 0
      · rw [argmaxQ_cons_cons, if_pos hc] at hq ⊢
        cases q with
        | zero =>
          simp only [List.getD_cons_zero, List.getD_cons_succ]
          exact hc
        | succ q2 =>
          have hq2 : q2 < argmaxQ (b :: t2) := by omega
          simp only [List.getD_cons_succ]
          exact ih q2 hq2
      · rw [argmaxQ_cons_cons, if_neg hc] at hq
        omega

lemma argminQ_lt_length (l : List ℚ) (h : l ≠ []) : argminQ l < l.length := by
  induction l with
  | nil => exact absurd rfl h
  | cons a t ih =>
    cases t with
    | nil => simp [argminQ]
    | cons b t2 =>
      by_cases hc : (b :: t2).getD (argminQ (b :: t2)) 0 < a
      · have hlt := ih (by simp)
        simp only [List.length_cons] at hlt
        rw [argminQ_cons_cons, if_pos hc]
        simp only [List.length_cons]
        omega
      · rw [argminQ_cons_cons, if_neg hc]
        simp only [List.length_cons]
        omega

lemma argminQ_is_min (l : List ℚ) (q : ℕ) (hq : q < l.length) :
    l.getD (argminQ l) 0 ≤ l.getD q 0 := by
  induction l generalizing q with
  | nil => simp at hq
  | cons a t ih =>
    cases t with
    | nil =>
      have hq0 : q = 0 := by simpa using hq
      subst hq0
      simp [argminQ]
    | cons b t2 =>
      by_cases hc : (b :: t2).getD (argminQ (b :: t2)) 0 < a
      · rw [argminQ_cons_cons, if_pos hc]
        cases q with
        | zero =>
          simp only [List.getD_cons_zero, List.getD_cons_succ]
          exact le_of_lt hc
        | succ q2 =>
          have hq2 : q2 < (b :: t2).length := by simpa using hq
          simp only [List.getD_cons_succ]
          exact ih q2 hq2
      · rw [argminQ_cons_cons, if_neg hc]
        have hM : a ≤ (b :: t2).getD (argminQ (b :: t2)) 0 := not_lt.mp hc
        cases q with
        | zero => simp
        | succ q2 =>
          have hq2 : q2 < (b :: t2).length := by simpa using hq
          have hle := ih q2 hq2
          simp only [List.getD_cons_succ, List.getD_cons_zero]
          exact le_trans hM hle

lemma argminQ_first (l : List ℚ) (q : ℕ) (hq : q < argminQ l) :
    l.getD (argminQ l) 0 < l.getD q 0 := by
  induction l generalizing q with
  | nil => simp [argminQ] at hq
  | cons a t ih =>
    cases t with
    | nil => simp [argminQ] at hq
    | cons b t2 =>
      by_cases hc : (b :: t2).getD (argminQ (b :: t2)) 0 < a
      · rw [argminQ_cons_cons, if_pos hc] at hq ⊢
        cases q with
        | zero =>
          simp only [List.getD_cons_zero, List.getD_cons_succ]
          exact hc
        | succ q2 =>
          have hq2 : q2 < argminQ (b :: t2) := by omega
          simp only [List.getD_cons_succ]
          exact ih q2 hq2
      · rw [argminQ_cons_cons, if_neg hc] at hq
        omega

lemma getD_reverse (l : List ℚ) (j : ℕ) (hj : j < l.length) :
    l.reverse.getD j 0 = l.getD (l.length - 1 - j) 0 := by
  rw [List.getD_eq_getElem?_getD, List.getD_eq_getElem?_getD,
    List.getElem?_reverse hj]

/-! ## Claim theorems -/

/-- C1: if no element of high-low is zero, non_zero_range returns high-low
exactly; if some element is exactly zero, every element of the result is
the corresponding element of high-low plus machine epsilon (the bump is
uniform, NaN stays NaN). -/
theorem non_zero_range_uniform_bump (high low : SeriesQ) :
    ((∀ d ∈ seriesBin (fun a b => a - b) high low, d ≠ some 0) →
      non_zero_range high low = seriesBin (fun a b => a - b) high low) ∧
    (some 0 ∈ seriesBin (fun a b => a - b) high low →
      ∀ i : ℕ, (non_zero_range high low).getD i none =
        ((seriesBin (fun a b => a - b) high low).getD i none).map
          (fun v => v + epsilon)) := by
  constructor
  · intro hno
    have hany : (seriesBin (fun a b => a - b) high low).any
        (fun o => decide (o = some 0)) = false := by
      rw [List.any_eq_false]
      intro x hx
      simpa using hno x hx
    simp [non_zero_range, hany]
  · intro hzero
    have hany : (seriesBin (fun a b => a - b) high low).any
        (fun o => decide (o = some 0)) = true := by
      rw [List.any_eq_true]
      exact ⟨some 0, hzero, by simp⟩
    intro i
    simp only [non_zero_range, hany, if_true]
    by_cases hi : i < (seriesBin (fun a b => a - b) high low).length
    · rw [List.getD_eq_getElem?_getD, List.getElem?_map]
      rw [List.getElem?_eq_getElem hi]
      simp [List.getD_eq_getElem?_getD, List.getElem?_eq_getElem hi]
    · have h1 : (seriesBin (fun a b => a - b) high low).length ≤ i :=
        Nat.le_of_not_lt hi
      have h2 : ((seriesBin (fun a b => a - b) high low).map
          (Option.map fun v => v + epsilon)).length ≤ i := by
        simpa using h1
      simp [List.getD_eq_getElem?_getD, List.getElem?_eq_none h1,
        List.getElem?_eq_none h2]

/-- Concrete instantiations of both branches of the epsilon-bump theorem:
a zero-free difference passes through unchanged, and a difference with a
zero gets epsilon added everywhere. -/
theorem non_zero_range_uniform_bump_witness :
    non_zero_range [some 3] [some 1] = seriesBin (fun a b => a - b) [some 3] [some 1] ∧
    ∀ i : ℕ, (non_zero_range [some 3, some 1] [some 1, some 1]).getD i none =
      ((seriesBin (fun a b => a - b) [some 3, some 1] [some 1, some 1]).getD i none).map
        (fun v => v + epsilon) :=
  ⟨(non_zero_range_uniform_bump [some 3] [some 1]).1 (by
      have h2 : seriesBin (fun a b => a - b) [some 3] [some 1] = [some 2] := by
        simp [seriesBin, sget, List.range_succ]; norm_num
      rw [h2]; simp),
   (non_zero_range_uniform_bump [some 3, some 1] [some 1, some 1]).2 (by
      have h2 : seriesBin (fun a b => a - b) [some 3, some 1] [some 1, some 1]
          = [some 2, some 0] := by
        simp [seriesBin, sget, List.range_succ]; norm_num
      rw [h2]; simp)⟩

/-- C4: verify_series returns the input unchanged exactly when the input is
a Series whose length reaches an integer min_length (always, when
min_length is absent); in every other case it returns None, and it is a
total function (no exception). -/
theorem verify_series_passthrough (x : PyObj) (m : ℤ) :
    (∀ s : SeriesQ, x = .series s →
      (verify_series x (.int m) = some s ↔ m ≤ (s.length : ℤ))) ∧
    (∀ s : SeriesQ, x = .series s → verify_series x .none = some s) ∧
    ((∀ s : SeriesQ, x ≠ .series s) →
      verify_series x (.int m) = none ∧ verify_series x .none = none) := by
  refine ⟨?_, ?_, ?_⟩
  · rintro s rfl
    by_cases hlt : (s.length : ℤ) < m
    · simp [verify_series, hlt]
    · simp [verify_series, hlt]; omega
  · rintro s rfl
    rfl
  · intro hx
    refine ⟨?_, verify_series_not_series x hx⟩
    cases x <;> first | rfl | exact absurd rfl (hx _)

/-- The passthrough characterisation evaluated concretely: a 2-element
series passes min_length 2 and has no min_length check applied with None,
while an int input is rejected in both modes. -/
theorem verify_series_passthrough_witness :
    (verify_series (.series [some 1, some 2]) (.int 2) = some [some 1, some 2] ↔
      (2 : ℤ) ≤ (([some 1, some 2] : SeriesQ).length : ℤ)) ∧
    verify_series (.series [some 1, some 2]) .none = some [some 1, some 2] ∧
    (verify_series (.int 7) (.int 2) = none ∧ verify_series (.int 7) .none = none) :=
  ⟨(verify_series_passthrough (.series [some 1, some 2]) 2).1 _ rfl,
   (verify_series_passthrough (.series [some 1, some 2]) 2).2.1 _ rfl,
   (verify_series_passthrough (.int 7) 2).2.2 (fun _ h => PyObj.noConfusion h)⟩

/-- C2 counterexample: with an invalid high argument, hl2 raises a
TypeError; it does not return a null result. -/
theorem hl2_invalid_returns_null_cex :
    hl2 (.int 5) (.series [some 1]) .none = .error .typeError ∧
    hl2 (.int 5) (.series [some 1]) .none ≠ .ok .none := by
  constructor
  · rfl
  · intro h
    exact Except.noConfusion h

/-- C2 amended: whenever validation of high or low fails (the argument is
not a Series), hl2 raises a TypeError from the arithmetic on the None
validation result; it never returns a null result. -/
theorem hl2_invalid_input_raises (high low offset : PyObj)
    (hbad : (∀ s : SeriesQ, high ≠ .series s) ∨ (∀ s : SeriesQ, low ≠ .series s)) :
    hl2 high low offset = .error .typeError := by
  cases h1 : verify_series high .none with
  | none =>
    cases h2 : verify_series low .none <;> simp [hl2, h1, h2]
  | some s1 =>
    cases h2 : verify_series low .none with
    | none => simp [hl2, h1, h2]
    | some s2 =>
      exfalso
      rcases hbad with hb | hb
      · exact hb s1 (verify_series_none_eq_some high s1 h1)
      · exact hb s2 (verify_series_none_eq_some low s2 h2)

/-- The amended hl2 error contract evaluated at a concrete invalid call. -/
theorem hl2_invalid_input_raises_witness :
    hl2 (.int 5) (.series [some 1]) .none = .error .typeError :=
  hl2_invalid_input_raises (.int 5) (.series [some 1]) .none
    (Or.inl fun _ h => PyObj.noConfusion h)

/-- C5: on valid series inputs with integer offset k, hl2 succeeds, the
result has the aligned length; for k = 0 it is exactly 0.5*(high+low)
elementwise, and in general element i of the result is element i-k of the
unshifted series, undefined whenever i-k is out of range (in particular
for i < k). -/
theorem hl2_elementwise_offset (h l : SeriesQ) (k : ℤ) :
    ∃ r : SeriesQ, hl2 (.series h) (.series l) (.int k) = .ok (.series r) ∧
      r.length = max h.length l.length ∧
      (k = 0 → r = halfSumSeries h l) ∧
      ∀ i : ℕ, i < r.length →
        r.getD i none = sget (halfSumSeries h l) ((i : ℤ) - k) := by
  by_cases hk : k = 0
  · subst hk
    refine ⟨halfSumSeries h l, by simp [hl2, get_offset, verify_series], ?_, fun _ => rfl, ?_⟩
    · exact length_halfSumSeries h l
    · intro i hi
      have : ((i : ℤ) - 0) = (i : ℤ) := by ring
      rw [this, sget_natCast]
  · refine ⟨shiftSeries (halfSumSeries h l) k, ?_, ?_, fun h0 => absurd h0 hk, ?_⟩
    · simp [hl2, get_offset, verify_series, hk]
    · rw [length_shiftSeries, length_halfSumSeries]
    · intro i hi
      rw [length_shiftSeries] at hi
      exact shiftSeries_getD (halfSumSeries h l) k i hi

/-- The hl2 characterisation evaluated at a concrete call with offset 0. -/
theorem hl2_elementwise_offset_witness :
    ∃ r : SeriesQ, hl2 (.series [some 2]) (.series [some 4]) (.int 0) = .ok (.series r) ∧
      r.length = max 1 1 ∧ r = halfSumSeries [some 2] [some 4] ∧
      r.getD 0 none = sget (halfSumSeries [some 2] [some 4]) ((0 : ℤ) - 0) := by
  obtain ⟨r, h1, h2, h3, h4⟩ := hl2_elementwise_offset [some 2] [some 4] 0
  refine ⟨r, h1, by simpa using h2, h3 rfl, ?_⟩
  have h0 : (0 : ℕ) < r.length := by
    rw [h2]; decide
  simpa using h4 0 h0

/-- C6: signed_series classifies each lag-step difference as +1 when
positive, -1 when negative, 0 when exactly zero (an undefined difference
stays undefined), forcibly overwrites position 0 with initial (or with
None when a string lag disqualifies it); on the documented example with
initial None and default lag the result is an undefined first element
followed by [-1,0,-1,0,1,1,0,1,-1]. -/
theorem signed_series_classification :
    signed_series (.series [some 3, some 2, some 2, some 1, some 1, some 5,
        some 6, some 6, some 7, some 5]) none .none =
      .ok [none, some (-1), some 0, some (-1), some 0, some 1, some 1, some 0,
        some 1, some (-1)] ∧
    (∀ (s : SeriesQ) (i0 : Option ℚ) (k : ℤ), s ≠ [] →
      ∃ r : SeriesQ, signed_series (.series s) i0 (.int k) = .ok r ∧
        r.length = s.length ∧ r.getD 0 none = i0 ∧
        ∀ j : ℕ, 0 < j → j < s.length →
          r.getD j none = ((sdiff s k).getD j none).map
            (fun d => if 0 < d then 1 else if d < 0 then -1 else d)) ∧
    (∀ (s : SeriesQ) (i0 : Option ℚ) (t : String), s ≠ [] →
      ∃ r : SeriesQ, signed_series (.series s) i0 (.str t) = .ok r ∧
        r.getD 0 none = none) := by
  refine ⟨?_, ?_, ?_⟩
  · simp [signed_series, sdiff, sget, List.range_succ]
    norm_num
  · intro s i0 k hs
    have hne : s.isEmpty = false := isEmpty_false_of_ne_nil s hs
    have hlen0 : 0 < s.length := List.length_pos.mpr hs
    refine ⟨(((sdiff s k).map (Option.map fun v => if 0 < v then 1 else v)).map
        (Option.map fun v => if v < 0 then -1 else v)).set 0 i0, ?_, ?_, ?_, ?_⟩
    · simp [signed_series, hne]
    · simp [length_sdiff]
    · apply getD_set_zero
      exact List.ne_nil_of_length_pos (by simp [length_sdiff]; omega)
    · intro j hj0 hjlt
      rw [getD_set_succ _ _ j (Nat.pos_iff_ne_zero.mp hj0)]
      rw [getD_map_optionMap, getD_map_optionMap]
      cases hd : (sdiff s k).getD j none with
      | none => rfl
      | some d => exact congrArg some (sign_mask_compose d)
  · intro s i0 t hs
    have hne : s.isEmpty = false := isEmpty_false_of_ne_nil s hs
    have hlen0 : 0 < s.length := List.length_pos.mpr hs
    refine ⟨(((sdiff s 1).map (Option.map fun v => if 0 < v then 1 else v)).map
        (Option.map fun v => if v < 0 then -1 else v)).set 0 none, ?_, ?_⟩
    · simp [signed_series, hne]
    · apply getD_set_zero
      exact List.ne_nil_of_length_pos (by simp [length_sdiff]; omega)

/-- The signed_series characterisation evaluated at a concrete nonempty
series with a surviving initial value, and at a string lag that forces the
initial value to None. -/
theorem signed_series_classification_witness :
    (∃ r : SeriesQ, signed_series (.series [some 1, some 2]) (some 5) (.int 1) = .ok r ∧
      r.length = ([some 1, some 2] : SeriesQ).length ∧ r.getD 0 none = some 5 ∧
      r.getD 1 none = ((sdiff [some 1, some 2] 1).getD 1 none).map
        (fun d => if 0 < d then 1 else if d < 0 then -1 else d)) ∧
    (∃ r : SeriesQ, signed_series (.series [some 1, some 2]) (some 5) (.str ("a")) = .ok r ∧
      r.getD 0 none = none) := by
  constructor
  · obtain ⟨r, h1, h2, h3, h4⟩ :=
      signed_series_classification.2.1 [some 1, some 2] (some 5) 1 (by simp)
    exact ⟨r, h1, h2, h3, h4 1 (by norm_num) (by norm_num)⟩
  · exact signed_series_classification.2.2 [some 1, some 2] (some 5) "a" (by simp)

/-- C7: unsigned_differences returns two parallel masks over the
amount-step difference with undefined values filled to 0: positive is 1
exactly where the filled difference is positive and 0 elsewhere, negative
is 1 exactly where it is negative; the documented default example
evaluates to the quoted masks. -/
theorem unsigned_differences_masks :
    unsigned_differences [some 3, some 2, some 2, some 1, some 1, some 5, some 6,
        some 6, some 7, some 5, some 3] .none =
      .ok ([0, 0, 0, 0, 0, 1, 1, 0, 1, 0, 0], [0, 1, 0, 1, 0, 0, 0, 0, 0, 1, 1]) ∧
    ∀ (s : SeriesQ) (k : ℤ),
      ∃ p n : List ℚ, unsigned_differences s (.int k) = .ok (p, n) ∧
        p.length = s.length ∧ n.length = s.length ∧
        ∀ j : ℕ, j < s.length →
          p.getD j 0 = (if 0 < (((sdiff s k).getD j none).getD 0) then 1 else 0) ∧
          n.getD j 0 = (if (((sdiff s k).getD j none).getD 0) < 0 then 1 else 0) := by
  constructor
  · simp [unsigned_differences, udCore, sdiff, sget, List.range_succ]
    norm_num
  · intro s k
    refine ⟨(udCore s k).1, (udCore s k).2, rfl, (udCore_length s k).1,
      (udCore_length s k).2, ?_⟩
    intro j hj
    exact udCore_masks s k j hj

/-- The unsigned_differences characterisation evaluated at a concrete
series and step. -/
theorem unsigned_differences_masks_witness :
    ∃ p n : List ℚ, unsigned_differences [some 1, some 2] (.int 1) = .ok (p, n) ∧
      p.length = ([some 1, some 2] : SeriesQ).length ∧
      n.length = ([some 1, some 2] : SeriesQ).length ∧
      (p.getD 1 0 = (if 0 < (((sdiff [some 1, some 2] 1).getD 1 none).getD 0) then 1 else 0) ∧
       n.getD 1 0 = (if (((sdiff [some 1, some 2] 1).getD 1 none).getD 0) < 0 then 1 else 0)) := by
  obtain ⟨p, n, h1, h2, h3, h4⟩ := unsigned_differences_masks.2 [some 1, some 2] 1
  exact ⟨p, n, h1, h2, h3, h4 1 (by norm_num)⟩

/-- C10: the two series returned by unsigned_differences have equal length
and are pointwise disjoint 0/1 masks: every element of each is 0 or 1 and
at no position are both masks 1 (their pointwise product is 0). -/
theorem unsigned_differences_disjoint_masks (s : SeriesQ) (a : PyObj)
    (p n : List ℚ) (h : unsigned_differences s a = .ok (p, n)) :
    p.length = n.length ∧
    ∀ j : ℕ, j < p.length →
      (p.getD j 0 = 0 ∨ p.getD j 0 = 1) ∧ (n.getD j 0 = 0 ∨ n.getD j 0 = 1) ∧
      p.getD j 0 * n.getD j 0 = 0 := by
  have hk : ∃ k : ℤ, udCore s k = (p, n) := by
    cases a with
    | none => exact ⟨1, by simpa [unsigned_differences] using h⟩
    | bool b => exact ⟨if b then 1 else 0, by simpa [unsigned_differences, pyInt, Except.map] using h⟩
    | int m => exact ⟨m, by simpa [unsigned_differences, pyInt, Except.map] using h⟩
    | float q => exact ⟨ratTrunc q, by simpa [unsigned_differences, pyInt, Except.map] using h⟩
    | str t => simp [unsigned_differences, pyInt, Except.map] at h
    | series s2 => simp [unsigned_differences, pyInt, Except.map] at h
  obtain ⟨k, hk⟩ := hk
  have hp : p = (udCore s k).1 := by rw [hk]
  have hn : n = (udCore s k).2 := by rw [hk]
  subst hp
  subst hn
  refine ⟨by rw [(udCore_length s k).1, (udCore_length s k).2], ?_⟩
  intro j hj
  have hjs : j < s.length := by rwa [(udCore_length s k).1] at hj
  obtain ⟨hpj, hnj⟩ := udCore_masks s k j hjs
  rw [hpj, hnj]
  rcases lt_trichotomy (((sdiff s k).getD j none).getD 0) 0 with hd | hd | hd
  · have h1 : ¬ 0 < (((sdiff s k).getD j none).getD 0) := by linarith
    rw [if_neg h1, if_pos hd]
    norm_num
  · rw [hd]
    norm_num
  · have h1 : ¬ (((sdiff s k).getD j none).getD 0) < 0 := by linarith
    rw [if_pos hd, if_neg h1]
    norm_num

/-- The disjoint-mask property evaluated at a concrete call of
unsigned_differences. -/
theorem unsigned_differences_disjoint_masks_witness :
    ([0, 1] : List ℚ).length = ([0, 0] : List ℚ).length ∧
    ((([0, 1] : List ℚ).getD 1 0 = 0 ∨ ([0, 1] : List ℚ).getD 1 0 = 1) ∧
     (([0, 0] : List ℚ).getD 1 0 = 0 ∨ ([0, 0] : List ℚ).getD 1 0 = 1) ∧
     ([0, 1] : List ℚ).getD 1 0 * ([0, 0] : List ℚ).getD 1 0 = 0) := by
  have h : unsigned_differences [some 1, some 2] .none = .ok ([0, 1], [0, 0]) := by
    simp [unsigned_differences, udCore, sdiff, sget, List.range_succ]
  obtain ⟨hl, hj⟩ :=
    unsigned_differences_disjoint_masks [some 1, some 2] .none [0, 1] [0, 0] h
  exact ⟨hl, hj 1 (by norm_num)⟩

/-- C8: on a nonempty window, recent_maximum_index (resp.
recent_minimum_index) is the position, counted backward from the end of
the window, of the maximal (resp. minimal) element closest to the end:
writing p for the corresponding original index, the element at p is a
maximum (resp. minimum) of the window and every element strictly after p
is strictly smaller (resp. larger). -/
theorem recent_extremum_index_from_end (x : List ℚ) (hx : x ≠ []) :
    (recent_maximum_index x < x.length ∧
      (∀ q, q < x.length →
        x.getD q 0 ≤ x.getD (x.length - 1 - recent_maximum_index x) 0) ∧
      (∀ q, x.length - 1 - recent_maximum_index x < q → q < x.length →
        x.getD q 0 < x.getD (x.length - 1 - recent_maximum_index x) 0)) ∧
    (recent_minimum_index x < x.length ∧
      (∀ q, q < x.length →
        x.getD (x.length - 1 - recent_minimum_index x) 0 ≤ x.getD q 0) ∧
      (∀ q, x.length - 1 - recent_minimum_index x < q → q < x.length →
        x.getD (x.length - 1 - recent_minimum_index x) 0 < x.getD q 0)) := by
  unfold recent_maximum_index recent_minimum_index
  have hlen : x.reverse.length = x.length := List.length_reverse x
  have hrne : x.reverse ≠ [] := by
    intro hnil
    have := congrArg List.length hnil
    rw [hlen] at this
    exact hx (List.length_eq_zero.mp this)
  have hpos : 0 < x.length := List.length_pos.mpr hx
  constructor
  · have hj : argmaxQ x.reverse < x.length := by
      rw [← hlen]; exact argmaxQ_lt_length x.reverse hrne
    have hval : x.reverse.getD (argmaxQ x.reverse) 0 =
        x.getD (x.length - 1 - argmaxQ x.reverse) 0 := getD_reverse x _ hj
    refine ⟨hj, ?_, ?_⟩
    · intro q hq
      have hq2 : x.length - 1 - q < x.length := by omega
      have h1 : x.reverse.getD (x.length - 1 - q) 0 ≤
          x.reverse.getD (argmaxQ x.reverse) 0 :=
        argmaxQ_is_max x.reverse _ (by rw [hlen]; exact hq2)
      have h2 : x.reverse.getD (x.length - 1 - q) 0 =
          x.getD (x.length - 1 - (x.length - 1 - q)) 0 := getD_reverse x _ hq2
      have h3 : x.length - 1 - (x.length - 1 - q) = q := by omega
      rw [h3] at h2
      rw [← h2, ← hval]
      exact h1
    · intro q hq1 hq2
      have hm : x.length - 1 - q < argmaxQ x.reverse := by omega
      have h1 : x.reverse.getD (x.length - 1 - q) 0 <
          x.reverse.getD (argmaxQ x.reverse) 0 := argmaxQ_first x.reverse _ hm
      have h2 : x.reverse.getD (x.length - 1 - q) 0 =
          x.getD (x.length - 1 - (x.length - 1 - q)) 0 :=
        getD_reverse x _ (by omega)
      have h3 : x.length - 1 - (x.length - 1 - q) = q := by omega
      rw [h3] at h2
      rw [← h2, ← hval]
      exact h1
  · have hj : argminQ x.reverse < x.length := by
      rw [← hlen]; exact argminQ_lt_length x.reverse hrne
    have hval : x.reverse.getD (argminQ x.reverse) 0 =
        x.getD (x.length - 1 - argminQ x.reverse) 0 := getD_reverse x _ hj
    refine ⟨hj, ?_, ?_⟩
    · intro q hq
      have hq2 : x.length - 1 - q < x.length := by omega
      have h1 : x.reverse.getD (argminQ x.reverse) 0 ≤
          x.reverse.getD (x.length - 1 - q) 0 :=
        argminQ_is_min x.reverse _ (by rw [hlen]; exact hq2)
      have h2 : x.reverse.getD (x.length - 1 - q) 0 =
          x.getD (x.length - 1 - (x.length - 1 - q)) 0 := getD_reverse x _ hq2
      have h3 : x.length - 1 - (x.length - 1 - q) = q := by omega
      rw [h3] at h2
      rw [← h2, ← hval] at *
      exact h1
    · intro q hq1 hq2
      have hm : x.length - 1 - q < argminQ x.reverse := by omega
      have h1 : x.reverse.getD (argminQ x.reverse) 0 <
          x.reverse.getD (x.length - 1 - q) 0 := argminQ_first x.reverse _ hm
      have h2 : x.reverse.getD (x.length - 1 - q) 0 =
          x.getD (x.length - 1 - (x.length - 1 - q)) 0 :=
        getD_reverse x _ (by omega)
      have h3 : x.length - 1 - (x.length - 1 - q) = q := by omega
      rw [h3] at h2
      rw [← h2, ← hval]
      exact h1

/-- The extremum-position characterisation evaluated on a concrete window
with ties: in [1, 3, 2, 3, 1] both extremes are attained twice and the
indices point at the occurrences closest to the end. -/
theorem recent_extremum_index_from_end_witness :
    (recent_maximum_index [(1 : ℚ), 3, 2, 3, 1] < 5 ∧
      ([(1 : ℚ), 3, 2, 3, 1] : List ℚ).getD 1 0 ≤
        ([(1 : ℚ), 3, 2, 3, 1] : List ℚ).getD
          (5 - 1 - recent_maximum_index [(1 : ℚ), 3, 2, 3, 1]) 0 ∧
      ([(1 : ℚ), 3, 2, 3, 1] : List ℚ).getD 4 0 <
        ([(1 : ℚ), 3, 2, 3, 1] : List ℚ).getD
          (5 - 1 - recent_maximum_index [(1 : ℚ), 3, 2, 3, 1]) 0) ∧
    ([(1 : ℚ), 3, 2, 3, 1] : List ℚ).getD
        (5 - 1 - recent_minimum_index [(1 : ℚ), 3, 2, 3, 1]) 0 ≤
      ([(1 : ℚ), 3, 2, 3, 1] : List ℚ).getD 2 0 := by
  obtain ⟨⟨hmj, hmle, hmlt⟩, ⟨hnj, hnle, hnlt⟩⟩ :=
    recent_extremum_index_from_end [(1 : ℚ), 3, 2, 3, 1] (by simp)
  refine ⟨⟨by simpa using hmj, by simpa using hmle 1 (by norm_num), ?_⟩,
    by simpa using hnle 2 (by norm_num)⟩
  have hgt : 5 - 1 - recent_maximum_index [(1 : ℚ), 3, 2, 3, 1] < 4 := by
    have : recent_maximum_index [(1 : ℚ), 3, 2, 3, 1] = 1 := by decide
    omega
  simpa using hmlt 4 (by simpa using hgt) (by norm_num)

/-- C3 counterexample: with measured rows of 1, 2 and 3 seconds and
top = 1, the summary statistics returned by the performance tail are not
the statistics of the returned (truncated) ranked table: the summary mean
is 2 (over all three rows) while the returned table holds the single
3-second row. -/
theorem performance_stats_truncation_cex :
    (perfCore [⟨"a", 1, 10⟩, ⟨"b", 2, 20⟩, ⟨"c", 3, 30⟩] (.int 1) false).2.1 ≠
      colStats ((perfCore [⟨"a", 1, 10⟩, ⟨"b", 2, 20⟩, ⟨"c", 3, 30⟩]
        (.int 1) false).1.map PerfRow.secs) := by
  have e1 : (perfCore [⟨"a", 1, 10⟩, ⟨"b", 2, 20⟩, ⟨"c", 3, 30⟩] (.int 1) false).2.1 =
      colStats [3, 2, 1] := by
    simp [perfCore, isortB, insertB, normTop]
  have e2 : ((perfCore [⟨"a", 1, 10⟩, ⟨"b", 2, 20⟩, ⟨"c", 3, 30⟩]
      (.int 1) false).1.map PerfRow.secs) = [3] := by
    simp [perfCore, isortB, insertB, normTop]
  rw [e1, e2]
  intro hcontra
  have hmean := congrArg ColStats.cmean hcontra
  simp [colStats, qmedian, isortB, insertB] at hmean
  norm_num at hmean

/-- C3 amended: the summary statistics of performance are computed over the
full ranked table before the top-truncation happens: an integer top leaves
the summary identical to the untruncated run and (when positive) only cuts
the returned ranked table down to its first top rows. -/
theorem performance_stats_before_truncation (rows : List PerfRow) (k : ℤ)
    (ascending : Bool) :
    (perfCore rows (.int k) ascending).2 = (perfCore rows .none ascending).2 ∧
    (perfCore rows (.int k) ascending).1 =
      (if 0 < k then (perfCore rows .none ascending).1.take k.toNat
       else (perfCore rows .none ascending).1) := by
  by_cases hk : 0 < k <;> simp [perfCore, normTop, hk]

/-- C9 counterexample: the float amount 3.5 is not a valid integer step,
yet unsigned_differences does not fall back to the default amount 1 —
int() truncates 3.5 to 3 and the resulting masks differ from the amount-1
masks — and a non-numeric string amount raises a ValueError instead of
falling back. -/
theorem param_fallback_cex :
    unsigned_differences [some 0, some 1, some 2, some 3] (.float (7 / 2)) ≠
      unsigned_differences [some 0, some 1, some 2, some 3] (.int 1) ∧
    unsigned_differences [some 0, some 1, some 2, some 3] (.str ("x")) =
      .error .valueError := by
  constructor
  · have h1 : ratTrunc (7 / 2) = 3 := by
      rw [ratTrunc, if_pos (by norm_num), Int.floor_eq_iff]
      norm_num
    have e1 : unsigned_differences [some 0, some 1, some 2, some 3] (.float (7 / 2)) =
        .ok (udCore [some 0, some 1, some 2, some 3] 3) := by
      simp [unsigned_differences, pyInt, Except.map, h1]
    have e2 : udCore [some 0, some 1, some 2, some 3] 3 =
        ([0, 0, 0, 1], [0, 0, 0, 0]) := by
      simp [udCore, sdiff, sget, List.range_succ]
      norm_num
    have e3 : udCore [some 0, some 1, some 2, some 3] 1 =
        ([0, 1, 1, 1], [0, 0, 0, 0]) := by
      simp [udCore, sdiff, sget, List.range_succ]
      norm_num
    rw [e1, show unsigned_differences [some 0, some 1, some 2, some 3] (.int 1) =
      .ok (udCore [some 0, some 1, some 2, some 3] 1) from rfl, e2, e3]
    intro hcontra
    norm_num at hcontra
  · rfl

/-- C9 amended: get_offset falls back to 0 on every non-integer input and
passes integers through; get_drift falls back to 1 on every non-integer or
zero input and passes nonzero integers through; the top parameter of
performance is disabled for every non-integer or non-positive value; the
quoted examples hold.  The amount parameter of unsigned_differences falls
back to its default 1 only when absent: a present amount is coerced with
int(), so a float is truncated instead of defaulted (and a non-numeric
value raises); places is forwarded unvalidated and has no fallback. -/
theorem param_fallback_defaults :
    (∀ x : PyObj, ((∀ n : ℤ, x ≠ .int n) ∧ (∀ b : Bool, x ≠ .bool b)) →
      get_offset x = 0 ∧ get_drift x = 1 ∧ normTop x = none) ∧
    (∀ n : ℤ, get_offset (.int n) = n) ∧
    (∀ n : ℤ, n ≠ 0 → get_drift (.int n) = n) ∧
    get_drift (.int 0) = 1 ∧
    (∀ n : ℤ, n ≤ 0 → normTop (.int n) = none) ∧
    (∀ s : SeriesQ, unsigned_differences s .none = .ok (udCore s 1)) ∧
    (∀ (s : SeriesQ) (q : ℚ), unsigned_differences s (.float q) =
      .ok (udCore s (ratTrunc q))) ∧
    (get_offset (.float (7 / 2)) = 0 ∧ get_offset (.int 5) = 5 ∧
      get_drift (.int 0) = 1 ∧ get_drift (.int (-3)) = -3) := by
  refine ⟨?_, fun n => rfl, ?_, rfl, ?_, fun s => rfl, fun s q => rfl,
    rfl, rfl, rfl, by norm_num [get_drift]⟩
  · intro x ⟨hni, hnb⟩
    cases x with
    | int n => exact absurd rfl (hni n)
    | bool b => exact absurd rfl (hnb b)
    | none => exact ⟨rfl, rfl, rfl⟩
    | float q => exact ⟨rfl, rfl, rfl⟩
    | str t => exact ⟨rfl, rfl, rfl⟩
    | series s => exact ⟨rfl, rfl, rfl⟩
  · intro n hn
    simp [get_drift, hn]
  · intro n hn
    simp [normTop]
    omega

/-- The fallback characterisation evaluated at concrete parameter values,
discharging each hypothesis. -/
theorem param_fallback_defaults_witness :
    (get_offset (.str ("y")) = 0 ∧ get_drift (.str ("y")) = 1 ∧
      normTop (.str ("y")) = none) ∧
    get_offset (.int 5) = 5 ∧ get_drift (.int (-3)) = -3 ∧
    normTop (.int (-2)) = none ∧
    unsigned_differences [] .none = .ok (udCore [] 1) ∧
    unsigned_differences [] (.float (7 / 2)) = .ok (udCore [] (ratTrunc (7 / 2))) :=
  ⟨param_fallback_defaults.1 (.str ("y"))
      ⟨fun _ h => PyObj.noConfusion h, fun _ h => PyObj.noConfusion h⟩,
   param_fallback_defaults.2.1 5,
   param_fallback_defaults.2.2.1 (-3) (by norm_num),
   param_fallback_defaults.2.2.2.2.1 (-2) (by norm_num),
   param_fallback_defaults.2.2.2.2.2.1 [],
   param_fallback_defaults.2.2.2.2.2.2.1 [] (7 / 2)⟩

end PandasTA
